import Mathlib

/-!
Verification development for the `databricks-maintenance` repository.

The definitions below are a shallow embedding of the Python sources:
  - `databricks_maintenance/runtime_manager.py` (catalog resolver,
    deprecation-knowledge merger, cluster classifier, upgrade recommender);
  - `databricks_maintenance/cache.py` (expiring key/value cache).

Python dicts holding fixed keys become structures; the `re` searches used by
the code are embedded as character-level scanners with the same
leftmost-match semantics; `datetime` values are embedded as civil
(year, month, day) triples together with a day-number conversion so that
order comparisons and day differences agree with `datetime` comparisons on
midnight values; fallible steps return `Option`.  External effects (HTTP
fetches, the cluster list, file I/O of the cache) are passed in as explicit
parameters or state.
-/

namespace DBM

/-! ## String utilities (Python `in`, `.lower()`, `.strip()`, slicing) -/

/-- Boolean prefix test on character lists. -/
def isPrefixB : List Char → List Char → Bool
  | [], _ => true
  | _ :: _, [] => false
  | a :: as, b :: bs => a == b && isPrefixB as bs

/-- Python's substring containment `needle in hay` on character lists. -/
def containsSub (needle : List Char) : List Char → Bool
  | [] => needle.isEmpty
  | c :: rest => isPrefixB needle (c :: rest) || containsSub needle rest

/-- Python's `needle in hay` on strings (substring containment). -/
def pyInStr (needle hay : String) : Bool :=
  containsSub needle.toList hay.toList

/-- Python's `str.lower()` (ASCII case folding suffices for the inputs used). -/
def lowerStr (s : String) : String :=
  String.mk (s.toList.map Char.toLower)

/-- Python's `str.strip()`: drop whitespace from both ends. -/
def stripStr (s : String) : String :=
  String.mk (((s.toList.dropWhile Char.isWhitespace).reverse.dropWhile
    Char.isWhitespace).reverse)

/-- Split a character list on a separator (used to embed the
`%Y-%m-%d` shape check of `strptime`). -/
def splitOnChar (sep : Char) : List Char → List (List Char)
  | [] => [[]]
  | c :: rest =>
    if c = sep then [] :: splitOnChar sep rest
    else
      match splitOnChar sep rest with
      | h :: t => (c :: h) :: t
      | [] => [[c]]

/-- Python's `text[:n]` slice. -/
def pyTakeStr (n : Nat) (s : String) : String :=
  String.mk (s.toList.take n)

/-- Numeric value of a digit string (inputs are always decimal digits,
matching Python's `int` on regex-extracted digit runs). -/
def strToNat (s : String) : Nat :=
  s.toList.foldl (fun n c => n * 10 + (c.toNat - '0'.toNat)) 0

/-- Zero-padded two-digit rendering, as in `strftime('%m')` / `%d`. -/
def padNat2 (n : Nat) : String :=
  if n < 10 then "0" ++ toString n else toString n

/-- Zero-padded four-digit rendering, as in `strftime('%Y')`. -/
def padNat4 (n : Nat) : String :=
  if n < 10 then "000" ++ toString n
  else if n < 100 then "00" ++ toString n
  else if n < 1000 then "0" ++ toString n
  else toString n

/-! ## The version pattern

`re.search(r'(\d+\.\d+)(\.x)?', name)` and `re.search(r'(\d+\.\d+)', text)`:
find the leftmost position at which a maximal digit run is followed by a dot
and another digit; the captured group is the two greedy digit runs joined by
the dot.  (The optional `(\.x)?` group never affects the first capture.)
`re.findall(r'(\d+\.\d+)(?:\s+LTS)?', text)[0]` yields this same leftmost
capture. -/

/-- Leftmost `\d+\.\d+` match of the Python version regexes. -/
def searchMajorMinor : List Char → Option String
  | [] => none
  | c :: rest =>
    if c.isDigit then
      match (c :: rest).dropWhile Char.isDigit with
      | '.' :: c2 :: rest2 =>
        if c2.isDigit then
          some (String.mk ((c :: rest).takeWhile Char.isDigit ++
            '.' :: (c2 :: rest2).takeWhile Char.isDigit))
        else searchMajorMinor rest
      | _ => searchMajorMinor rest
    else searchMajorMinor rest

/-- Version extraction on a string. -/
def searchVersionStr (s : String) : Option String :=
  searchMajorMinor s.toList

/-! ## The date pattern

Table scan: `re.search(r'(\w+ \d+, \d{4}|\d{4}-\d{2}-\d{2}|\d{2}/\d{2}/\d{4}|\w+ \d{4})', eol_text)`.
Free text: `re.findall(...)` with first alternative `\w+ \d+,? \d{4}`, of
which only the leftmost match is used.  Alternatives are tried in order at
each position, positions left to right. -/

/-- Python `\w` on the ASCII inputs involved: letters, digits, underscore. -/
def isWordChar (c : Char) : Bool :=
  c.isAlphanum || c == '_'

/-- Match exactly `n` digits at the front; return them with the rest. -/
def exactDigits : Nat → List Char → Option (List Char × List Char)
  | 0, s => some ([], s)
  | n + 1, c :: rest =>
    if c.isDigit then
      (exactDigits n rest).map (fun p => (c :: p.1, p.2))
    else none
  | _ + 1, [] => none

/-- Alternative `\w+ \d+, \d{4}` (table) or `\w+ \d+,? \d{4}` (free text),
anchored at the current position. -/
def matchWordDayYear (commaOptional : Bool) (s : List Char) : Option (List Char) :=
  let w := s.takeWhile isWordChar
  if w.isEmpty then none else
  match s.dropWhile isWordChar with
  | ' ' :: s1 =>
    let d1 := s1.takeWhile Char.isDigit
    if d1.isEmpty then none else
    match s1.dropWhile Char.isDigit with
    | ',' :: ' ' :: s3 =>
      (exactDigits 4 s3).map (fun p => w ++ ' ' :: d1 ++ ',' :: ' ' :: p.1)
    | ' ' :: s3 =>
      if commaOptional then
        (exactDigits 4 s3).map (fun p => w ++ ' ' :: d1 ++ ' ' :: p.1)
      else none
    | _ => none
  | _ => none

/-- Alternative `\d{4}-\d{2}-\d{2}`, anchored at the current position. -/
def matchIsoDate (s : List Char) : Option (List Char) :=
  match exactDigits 4 s with
  | some (y, '-' :: s1) =>
    match exactDigits 2 s1 with
    | some (m, '-' :: s2) =>
      (exactDigits 2 s2).map (fun p => y ++ '-' :: m ++ '-' :: p.1)
    | _ => none
  | _ => none

/-- Alternative `\d{2}/\d{2}/\d{4}`, anchored at the current position. -/
def matchSlashDate (s : List Char) : Option (List Char) :=
  match exactDigits 2 s with
  | some (m, '/' :: s1) =>
    match exactDigits 2 s1 with
    | some (d, '/' :: s2) =>
      (exactDigits 4 s2).map (fun p => m ++ '/' :: d ++ '/' :: p.1)
    | _ => none
  | _ => none

/-- Alternative `\w+ \d{4}`, anchored at the current position. -/
def matchWordYear (s : List Char) : Option (List Char) :=
  let w := s.takeWhile isWordChar
  if w.isEmpty then none else
  match s.dropWhile isWordChar with
  | ' ' :: s1 => (exactDigits 4 s1).map (fun p => w ++ ' ' :: p.1)
  | _ => none

/-- All four date alternatives, in the order of the Python pattern, anchored
at the current position. -/
def dateMatchAt (commaOptional : Bool) (s : List Char) : Option (List Char) :=
  (matchWordDayYear commaOptional s).orElse fun _ =>
  (matchIsoDate s).orElse fun _ =>
  (matchSlashDate s).orElse fun _ =>
  matchWordYear s

/-- Leftmost match of the date pattern (`re.search` semantics; the first
element of `re.findall` is this same leftmost match). -/
def dateSearch (commaOptional : Bool) : List Char → Option String
  | [] => none
  | c :: rest =>
    match dateMatchAt commaOptional (c :: rest) with
    | some m => some (String.mk m)
    | none => dateSearch commaOptional rest

/-! ## Calendar arithmetic and `strptime` / `strftime`

`datetime` values that matter to the claims are midnights; they are embedded
as civil `(year, month, day)` triples plus a proleptic-Gregorian day number
(`toDayNumber`, days counted from 0000-03-01), so that `datetime` order and
whole-day differences are preserved. -/

/-- Leap-year rule of the Gregorian calendar (as used by `datetime`). -/
def isLeapYear (y : Nat) : Bool :=
  y % 4 == 0 && (y % 100 != 0 || y % 400 == 0)

/-- Number of days in a month. -/
def daysInMonth (y m : Nat) : Nat :=
  if m == 2 then (if isLeapYear y then 29 else 28)
  else if m == 4 || m == 6 || m == 9 || m == 11 then 30
  else 31

/-- Validity of a civil date as enforced by `datetime` (year 1..9999). -/
def validDate (y m d : Nat) : Bool :=
  1 ≤ y && y ≤ 9999 && 1 ≤ m && m ≤ 12 && 1 ≤ d && d ≤ daysInMonth y m

/-- Day number of a valid civil date (proleptic Gregorian, counted from
0000-03-01; only order and differences are ever used). -/
def toDayNumber : Nat × Nat × Nat → Nat
  | (y, m, d) =>
    let y' := if m ≤ 2 then y - 1 else y
    let era := y' / 400
    let yoe := y' % 400
    let mp := (m + 9) % 12
    let doy := (153 * mp + 2) / 5 + (d - 1)
    era * 146097 + yoe * 365 + yoe / 4 - yoe / 100 + doy

/-- The `strftime('%Y-%m-%d')` rendering of a civil date. -/
def fmtIsoDate (y m d : Nat) : String :=
  padNat4 y ++ "-" ++ padNat2 m ++ "-" ++ padNat2 d

/-- Full month names recognised by `strptime`'s `%B` (case-insensitive). -/
def monthNames : List String :=
  ["january", "february", "march", "april", "may", "june", "july",
   "august", "september", "october", "november", "december"]

/-- Month number for a `%B` word, after case folding; `none` raises
`ValueError` in the source. -/
def monthNum (w : String) : Option Nat :=
  match (monthNames.zip (List.range' 1 12)).lookup (lowerStr w) with
  | some n => some n
  | none => none

/-- A run of digits of length 1 or 2, as accepted by `%d` / `%m`. -/
def digits12 (cs : List Char) : Bool :=
  (cs.length == 1 || cs.length == 2) && cs.all Char.isDigit

/-- A run of digits of length 1 to 4, as accepted by `%Y`. -/
def digits14 (cs : List Char) : Bool :=
  (1 ≤ cs.length && cs.length ≤ 4) && cs.all Char.isDigit

/-- `strptime(s, '%B %d, %Y').strftime('%Y-%m-%d')`, `none` on `ValueError`.
The input is always a full match of `\w+ \d+, \d{4}`. -/
def parseMonthDayYear (s : String) : Option String :=
  let cs := s.toList
  let w := cs.takeWhile isWordChar
  match cs.dropWhile isWordChar with
  | ' ' :: s1 =>
    let d1 := s1.takeWhile Char.isDigit
    if digits12 d1 then
      match s1.dropWhile Char.isDigit with
      | ',' :: ' ' :: s3 =>
        let y := s3.takeWhile Char.isDigit
        if digits14 y && (s3.dropWhile Char.isDigit).isEmpty then
          match monthNum (String.mk w) with
          | some m =>
            let yv := strToNat (String.mk y)
            let dv := strToNat (String.mk d1)
            if validDate yv m dv then some (fmtIsoDate yv m dv) else none
          | none => none
        else none
      | _ => none
    else none
  | _ => none

/-- `strptime(s, '%B %d %Y').strftime('%Y-%m-%d')` applied after
`s.replace(',', '')`, `none` on `ValueError` (free-text branch). -/
def parseMonthDayYearNoComma (s : String) : Option String :=
  let cs := (s.toList.filter (fun c => c != ','))
  let w := cs.takeWhile isWordChar
  match cs.dropWhile isWordChar with
  | ' ' :: s1 =>
    let d1 := s1.takeWhile Char.isDigit
    if digits12 d1 then
      match s1.dropWhile Char.isDigit with
      | ' ' :: s3 =>
        let y := s3.takeWhile Char.isDigit
        if digits14 y && (s3.dropWhile Char.isDigit).isEmpty then
          match monthNum (String.mk w) with
          | some m =>
            let yv := strToNat (String.mk y)
            let dv := strToNat (String.mk d1)
            if validDate yv m dv then some (fmtIsoDate yv m dv) else none
          | none => none
        else none
      | _ => none
    else none
  | _ => none

/-- `strptime(s, '%m/%d/%Y').strftime('%Y-%m-%d')`, `none` on `ValueError`.
The input is always a full match of `\d{2}/\d{2}/\d{4}`. -/
def parseSlashDate (s : String) : Option String :=
  match s.toList with
  | [m1, m2, '/', d1, d2, '/', y1, y2, y3, y4] =>
    if [m1, m2, d1, d2, y1, y2, y3, y4].all Char.isDigit then
      let mv := strToNat (String.mk [m1, m2])
      let dv := strToNat (String.mk [d1, d2])
      let yv := strToNat (String.mk [y1, y2, y3, y4])
      if validDate yv mv dv then some (fmtIsoDate yv mv dv) else none
    else none
  | _ => none

/-- `strptime(s ++ " 1", '%B %Y %d').strftime('%Y-%m-%d')`, `none` on
`ValueError`.  The input is always a full match of `\w+ \d{4}`. -/
def parseMonthYear (s : String) : Option String :=
  let cs := s.toList
  let w := cs.takeWhile isWordChar
  match cs.dropWhile isWordChar with
  | ' ' :: s1 =>
    let y := s1.takeWhile Char.isDigit
    if digits14 y && (s1.dropWhile Char.isDigit).isEmpty then
      match monthNum (String.mk w) with
      | some m =>
        let yv := strToNat (String.mk y)
        if validDate yv m 1 then some (fmtIsoDate yv m 1) else none
      | none => none
    else none
  | _ => none

/-- The table-scan dispatch on a matched date string: `re.match` against the
four formats in source order, then the corresponding `strptime`; `none`
models both the `continue` of an unrecognised format and a `ValueError`. -/
def parseDateTable (date_str : String) : Option String :=
  if (matchWordDayYear false date_str.toList).isSome then
    parseMonthDayYear date_str
  else if (matchIsoDate date_str.toList).isSome then
    some date_str
  else if (matchSlashDate date_str.toList).isSome then
    parseSlashDate date_str
  else if (matchWordYear date_str.toList).isSome then
    parseMonthYear date_str
  else none

/-- The free-text dispatch: identical except the first format tolerates a
missing comma and strips commas before `strptime('%B %d %Y')`. -/
def parseDateText (date_str : String) : Option String :=
  if (matchWordDayYear true date_str.toList).isSome then
    parseMonthDayYearNoComma date_str
  else if (matchIsoDate date_str.toList).isSome then
    some date_str
  else if (matchSlashDate date_str.toList).isSome then
    parseSlashDate date_str
  else if (matchWordYear date_str.toList).isSome then
    parseMonthYear date_str
  else none

/-- `strptime(s, '%Y-%m-%d')` as used by the classifier on stored
deprecation dates, returning the civil triple; `none` on `ValueError`. -/
def parseDateISO (s : String) : Option (Nat × Nat × Nat) :=
  match splitOnChar '-' s.toList with
  | [ys, ms, ds] =>
    if digits14 ys && digits12 ms && digits12 ds then
      if validDate (strToNat (String.mk ys)) (strToNat (String.mk ms))
          (strToNat (String.mk ds)) then
        some (strToNat (String.mk ys), strToNat (String.mk ms),
          strToNat (String.mk ds))
      else none
    else none
  | _ => none

/-- `relativedelta(months=3)` added to a civil date: advance the month by
three, carrying into the year and clamping the day to the target month. -/
def addThreeMonths : Nat × Nat × Nat → Nat × Nat × Nat
  | (y, m, d) =>
    let m3 := m + 3
    if m3 > 12 then (y + 1, m3 - 12, min d (daysInMonth (y + 1) (m3 - 12)))
    else (y, m3, min d (daysInMonth y m3))

/-! ## Data model

The dict shapes used by `runtime_manager.py`, as structures. -/

/-- A raw entry of the platform's runtime-offerings response. -/
structure RawSparkVersion where
  key : String
  name : String
deriving DecidableEq, Repr

/-- A catalog record built by `get_available_runtime_versions`. -/
structure RuntimeVersion where
  key : String
  name : String
  version : String
  is_lts : Bool
deriving DecidableEq, Repr

/-- A deprecation record of the merged `version -> record` map. -/
structure DeprecationRecord where
  version : String
  deprecation_date : String
  source : String
  note : String
deriving DecidableEq, Repr

/-- A live cluster as returned by the cluster-list API. -/
structure ClusterInfo where
  cluster_id : String
  cluster_name : String
  spark_version : String
deriving DecidableEq, Repr

/-- An output entry of `get_deprecated_runtime_clusters`. -/
structure AtRiskCluster where
  cluster_id : String
  cluster_name : String
  current_runtime : String
  status : String
  deprecation_date : String
  note : String
  source : String
deriving DecidableEq, Repr

/-- An input cluster of `recommend_runtime_upgrades` (the keys it reads). -/
structure UpgradeCandidate where
  cluster_id : String
  cluster_name : String
  current_runtime : String
deriving DecidableEq, Repr

/-- A recommendation value of `recommend_runtime_upgrades`. -/
structure Recommendation where
  runtime_key : String
  runtime_name : String
  rationale : String
deriving DecidableEq, Repr

/-- A parsed HTML table: the texts of its `th` cells and, per `tr` row, the
texts of its cells (`td` and `th`). -/
structure HtmlTable where
  ths : List String
  trs : List (List String)
deriving DecidableEq, Repr

/-- A fetched documentation page: its tables and its free-text blocks
(`p`, `li`, `div`, `span`). -/
structure DocPage where
  tables : List HtmlTable
  texts : List String
deriving DecidableEq, Repr

/-! ## Python dict semantics

String-keyed insertion-ordered maps as association lists. -/

/-- `d[k] = v`: overwrite the existing binding in place (keys are unique in
every map this development builds), or append a new binding. -/
def pySet {β : Type} : List (String × β) → String → β → List (String × β)
  | [], k, v => [(k, v)]
  | (a, b) :: t, k, v =>
    if a == k then (k, v) :: t else (a, b) :: pySet t k v

/-- `if k not in d: d[k] = v`: add only when the key is absent. -/
def pySetIfAbsent {β : Type} (m : List (String × β)) (k : String) (v : β) :
    List (String × β) :=
  if (List.lookup k m).isSome then m else m ++ [(k, v)]

/-- The merged deprecation map `version -> DeprecationRecord`. -/
abbrev DepMap := List (String × DeprecationRecord)

/-! ## Runtime catalog resolver (`get_available_runtime_versions`,
`get_current_lts_runtimes`) -/

/-- The numeric sort key `[int(part) for part in version.split(".")]`, for
the `major.minor` strings the resolver produces. -/
def verKey (v : String) : Nat × Nat :=
  match splitOnChar '.' v.toList with
  | [a, b] => (strToNat (String.mk a), strToNat (String.mk b))
  | _ => (0, 0)

/-- Python's list comparison on the two-element sort keys: numeric-tuple
(lexicographic) order. -/
def verKeyLe (a b : Nat × Nat) : Bool :=
  decide (a.1 < b.1) || (a.1 == b.1 && decide (a.2 ≤ b.2))

/-- One catalog record per raw entry whose name has a `major.minor`
pattern. -/
def mkRuntimeVersion (v : RawSparkVersion) : Option RuntimeVersion :=
  (searchVersionStr v.name).map
    (fun num => ⟨v.key, v.name, num, pyInStr "LTS" v.name⟩)

/-- Ascending catalog order: numeric sort key comparison. -/
def catalogLe (a b : RuntimeVersion) : Prop :=
  verKeyLe (verKey a.version) (verKey b.version) = true

instance : DecidableRel catalogLe :=
  fun a b => inferInstanceAs
    (Decidable (verKeyLe (verKey a.version) (verKey b.version) = true))

/-- Descending catalog order (`reverse=True`). -/
def catalogGe (a b : RuntimeVersion) : Prop :=
  verKeyLe (verKey b.version) (verKey a.version) = true

instance : DecidableRel catalogGe :=
  fun a b => inferInstanceAs
    (Decidable (verKeyLe (verKey b.version) (verKey a.version) = true))

/-- `get_available_runtime_versions`, given the raw response: extract, drop
unparseable entries, and stable-sort ascending by numeric key (Python's
`list.sort` is stable; a stable insertion sort by the same key returns the
identical list; the cache interaction is modelled separately, see
`get_available_cached`). -/
def get_available_runtime_versions (response : List RawSparkVersion) :
    List RuntimeVersion :=
  (response.filterMap mkRuntimeVersion).insertionSort catalogLe

/-- `get_current_lts_runtimes`, given the resolved catalog: filter names
containing "LTS" and stable-sort descending (`reverse=True`). -/
def get_current_lts_runtimes (all_runtimes : List RuntimeVersion) :
    List RuntimeVersion :=
  (all_runtimes.filter (fun rt => pyInStr "LTS" rt.name)).insertionSort
    catalogGe

/-! ## Deprecation knowledge merger (`fetch_deprecation_dates_from_docs`) -/

/-- The hardcoded seed table `known_eol_dates`. -/
def known_eol_dates : DepMap :=
  [("9.1", ⟨"9.1", "2024-12-19", "hardcoded",
      "DBR 9.1 LTS end of support date: December 19, 2024"⟩),
   ("10.4", ⟨"10.4", "2025-06-30", "hardcoded",
      "DBR 10.4 LTS end of support date: June 30, 2025"⟩),
   ("7.3", ⟨"7.3", "2022-12-31", "hardcoded",
      "DBR 7.3 LTS end of support date: December 31, 2022"⟩),
   ("8.4", ⟨"8.4", "2023-09-30", "hardcoded",
      "DBR 8.4 LTS end of support date: September 30, 2023"⟩),
   ("11.3", ⟨"11.3", "2025-12-31", "hardcoded",
      "DBR 11.3 LTS end of support date: December 31, 2025"⟩)]

/-- The documentation URLs scanned, in source order. -/
def urls : List String :=
  ["https://docs.databricks.com/en/release-notes/runtime/releases.html",
   "https://learn.microsoft.com/en-us/azure/databricks/release-notes/runtime",
   "https://docs.databricks.com/gcp/en/release-notes/runtime"]

/-- Header scan: for each header (stripped, lowercased), remember the last
index containing a version-like term and the last index containing an
end-of-life-like term (later headers overwrite earlier ones, as in the
source's loop). -/
def scanHeaderCols : Nat → Option Nat × Option Nat → List String →
    Option Nat × Option Nat
  | _, acc, [] => acc
  | i, (v, e), h :: hs =>
    let v' := if ["version", "runtime", "dbr"].any (fun t => pyInStr t h)
      then some i else v
    let e' := if ["eol", "end of life", "deprecation", "support end",
        "end of support", "End-of-support date"].any (fun t => pyInStr t h)
      then some i else e
    scanHeaderCols (i + 1) (v', e') hs

/-- One data row of a recognised table: extract a version and a date; a
parsed date is added only for versions not yet present; a row marked
"deprecated" without an extractable date is written unconditionally, stamped
with the current date. -/
def processRow (today url : String) (version_col eol_col : Nat)
    (m : DepMap) (row : List String) : DepMap :=
  if row.length > max version_col eol_col then
    match searchVersionStr (stripStr (row.getD version_col "")) with
    | some version =>
      match dateSearch false (stripStr (row.getD eol_col "")).toList with
      | some date_str =>
        match parseDateTable date_str with
        | some deprecation_date =>
          pySetIfAbsent m version ⟨version, deprecation_date, url,
            "Found in table: " ++ stripStr (row.getD version_col "") ++
              " - " ++ stripStr (row.getD eol_col "")⟩
        | none => m
      | none =>
        if pyInStr "deprecated" (lowerStr (stripStr (row.getD eol_col ""))) then
          pySet m version ⟨version, today, url,
            "Marked as deprecated without specific date"⟩
        else m
    | none => m
  else m

/-- One table: locate the version and end-of-life columns and process every
data row (the header row is skipped). -/
def processTable (today url : String) (m : DepMap) (tbl : HtmlTable) :
    DepMap :=
  let headers := tbl.ths.map (fun h => lowerStr (stripStr h))
  match scanHeaderCols 0 (none, none) headers with
  | (some version_col, some eol_col) =>
    (tbl.trs.drop 1).foldl (processRow today url version_col eol_col) m
  | _ => m

/-- The word list of the free-text keyword check (each term of the source's
list is split into words by the nested generator). -/
def deprecationKeywords : List String :=
  ["deprecate", "eol", "end", "of", "life", "end", "of", "support",
   "no", "longer", "supported"]

/-- One free-text block: when a keyword occurs, a record is added (only for
versions not yet present) when both a version and a parseable date are
extracted from the same block.  The current date is in scope in the source
but never used by this pass. -/
def processText (_today url : String) (m : DepMap) (rawText : String) :
    DepMap :=
  if deprecationKeywords.any
      (fun w => pyInStr w (lowerStr (stripStr rawText))) then
    match searchVersionStr (stripStr rawText),
        dateSearch true (stripStr rawText).toList with
    | some version, some date_str =>
      match parseDateText date_str with
      | some deprecation_date =>
        pySetIfAbsent m version
          ⟨version, deprecation_date, url, pyTakeStr 200 (stripStr rawText)⟩
      | none => m
    | _, _ => m
  else m

/-- One successfully fetched page: all tables, then all free-text blocks. -/
def processPage (today url : String) (page : DocPage) (m : DepMap) :
    DepMap :=
  page.texts.foldl (processText today url)
    (page.tables.foldl (processTable today url) m)

/-- Condition under which `processRow` writes version `v` through its
unconditional "marked deprecated without a specific date" branch. -/
def rowOverwritesVersion (v : String) (version_col eol_col : Nat)
    (row : List String) : Bool :=
  decide (row.length > max version_col eol_col) &&
  (searchVersionStr (stripStr (row.getD version_col "")) == some v) &&
  (dateSearch false (stripStr (row.getD eol_col "")).toList).isNone &&
  pyInStr "deprecated" (lowerStr (stripStr (row.getD eol_col "")))

/-- Some data row of the table writes version `v` unconditionally. -/
def tableOverwritesVersion (v : String) (tbl : HtmlTable) : Bool :=
  match scanHeaderCols 0 (none, none)
      (tbl.ths.map (fun h => lowerStr (stripStr h))) with
  | (some version_col, some eol_col) =>
    (tbl.trs.drop 1).any (rowOverwritesVersion v version_col eol_col)
  | _ => false

/-- Some table of the page writes version `v` unconditionally. -/
def pageOverwritesVersion (v : String) (page : DocPage) : Bool :=
  page.tables.any (tableOverwritesVersion v)

/-- The `(major, minor)` pairs visited by the gap-filling inference pass:
`range(1, 13)` majors by `range(0, 15)` minors. -/
def gapCandidates : List (Nat × Nat) :=
  (List.range' 1 12).flatMap
    (fun major => (List.range 15).map (fun minor => (major, minor)))

/-- The version string `f"{major}.{minor}"` of an inference candidate. -/
def inferVersion (p : Nat × Nat) : String :=
  toString p.1 ++ "." ++ toString p.2

/-- The inference cutoff: `major < 9 or (major == 9 and minor < 1)`. -/
def inferBelowCutoff (p : Nat × Nat) : Bool :=
  decide (p.1 < 9) || (p.1 == 9 && decide (p.2 < 1))

/-- The record synthesized by the inference pass. -/
def inferredRecord (today v : String) : DeprecationRecord :=
  ⟨v, today, "inference",
   "Inferred deprecation (version not available for creation)"⟩

/-- One step of the inference pass: a version below the cutoff with neither
a record nor a catalog entry gets an inferred record dated today. -/
def inferStep (today : String) (available_version_numbers : List String)
    (m : DepMap) (p : Nat × Nat) : DepMap :=
  if (List.lookup (inferVersion p) m).isNone &&
      !(available_version_numbers.contains (inferVersion p)) then
    if inferBelowCutoff p then
      m ++ [(inferVersion p, inferredRecord today (inferVersion p))]
    else m
  else m

/-- The gap-filling inference pass over the accumulated map. -/
def inferencePass (today : String) (available_version_numbers : List String)
    (m : DepMap) : DepMap :=
  gapCandidates.foldl (inferStep today available_version_numbers) m

/-- `fetch_deprecation_dates_from_docs`: seed with the hardcoded table,
process each URL's page in order (a failed fetch is logged and skipped),
then run the inference pass.  `fetchPage` models the HTTP fetch and parse,
`available_version_numbers` the versions of the current catalog, `today`
the `%Y-%m-%d` rendering of the current date. -/
def fetch_deprecation_dates_from_docs (fetchPage : String → Option DocPage)
    (available_version_numbers : List String) (today : String) : DepMap :=
  let m0 : DepMap := known_eol_dates
  let m1 := urls.foldl (fun m url =>
    match fetchPage url with
    | some page => processPage today url page m
    | none => m) m0
  inferencePass today available_version_numbers m1

/-! ## Cluster classifier (`get_deprecated_runtime_clusters`) -/

/-- The loop body of `get_deprecated_runtime_clusters` for one cluster;
`dnow` and `dthreshold` are the day numbers of "now" and of the threshold.
Returns the appended entry, or `none` when the cluster contributes
nothing (unparseable version, supported, or malformed stored date). -/
def classifyCluster (dnow dthreshold : Nat)
    (runtime_deprecation_info : DepMap)
    (available_runtime_versions : List String) (c : ClusterInfo) :
    Option AtRiskCluster :=
  match searchVersionStr c.spark_version with
  | none => none
  | some version =>
    match List.lookup version runtime_deprecation_info with
    | some info =>
      if info.deprecation_date.isEmpty then none
      else
        match parseDateISO info.deprecation_date with
        | none => none
        | some ymd =>
          if toDayNumber ymd ≤ dnow then
            some ⟨c.cluster_id, c.cluster_name, c.spark_version,
              "DEPRECATED", info.deprecation_date, info.note, info.source⟩
          else if toDayNumber ymd ≤ dthreshold then
            some ⟨c.cluster_id, c.cluster_name, c.spark_version,
              "SOON_DEPRECATED", info.deprecation_date,
              "This runtime will be deprecated in " ++
                toString (toDayNumber ymd - dnow) ++ " days.", info.source⟩
          else none
    | none =>
      if available_runtime_versions.contains version then none
      else
        some ⟨c.cluster_id, c.cluster_name, c.spark_version, "DEPRECATED",
          "Unknown",
          "This runtime is no longer available for new cluster creation",
          "availability_check"⟩

/-- `get_deprecated_runtime_clusters`: the threshold defaults to three
calendar months from now; each cluster contributes via `classifyCluster`. -/
def get_deprecated_runtime_clusters (now : Nat × Nat × Nat)
    (deprecated_date_threshold : Option (Nat × Nat × Nat))
    (runtime_deprecation_info : DepMap)
    (available_runtime_versions : List String)
    (clusters : List ClusterInfo) : List AtRiskCluster :=
  let threshold := deprecated_date_threshold.getD (addThreeMonths now)
  clusters.filterMap (classifyCluster (toDayNumber now)
    (toDayNumber threshold) runtime_deprecation_info
    available_runtime_versions)

/-! ## Upgrade recommender (`recommend_runtime_upgrades`) -/

/-- The loop body of `recommend_runtime_upgrades` for one cluster, given the
resolved catalog; `none` models the `TypeError` raised when a fall-through
branch subscripts an absent "latest" runtime. -/
def recommendOne (all_runtimes : List RuntimeVersion)
    (cluster : UpgradeCandidate) : Option Recommendation :=
  let lts_runtimes := get_current_lts_runtimes all_runtimes
  let latest_lts := lts_runtimes.head?
  let latest_regular := all_runtimes.getLast?
  let ml_runtimes := all_runtimes.filter (fun rt => pyInStr "ML" rt.name)
  let latest_ml := ml_runtimes.getLast?
  let ml_lts_runtimes := ml_runtimes.filter (fun rt => pyInStr "LTS" rt.name)
  let latest_ml_lts := match ml_lts_runtimes.getLast? with
    | some r => some r
    | none => latest_ml
  let genomics_runtimes :=
    all_runtimes.filter (fun rt => pyInStr "Genomics" rt.name)
  let latest_genomics := genomics_runtimes.getLast?
  let photon_runtimes :=
    all_runtimes.filter (fun rt => pyInStr "Photon" rt.name)
  let latest_photon := photon_runtimes.getLast?
  let cluster_name := lowerStr cluster.cluster_name
  let is_ml := pyInStr "ml" (lowerStr cluster.current_runtime)
  let is_genomics := pyInStr "genomics" (lowerStr cluster.current_runtime)
  let is_photon := pyInStr "photon" (lowerStr cluster.current_runtime)
  let is_production := ["prod", "production", "prd", "live"].any
    (fun term => pyInStr term cluster_name)
  if is_production then
    if is_ml && latest_ml_lts.isSome then
      latest_ml_lts.map (fun r => ⟨r.key, r.name,
        "Latest ML LTS runtime recommended for production ML workloads"⟩)
    else if is_genomics && latest_genomics.isSome then
      latest_genomics.map (fun r => ⟨r.key, r.name,
        "Latest Genomics runtime recommended for production genomics workloads"⟩)
    else if is_photon && latest_photon.isSome then
      latest_photon.map (fun r => ⟨r.key, r.name,
        "Latest Photon runtime recommended for production SQL workloads"⟩)
    else if latest_lts.isSome then
      latest_lts.map (fun r => ⟨r.key, r.name,
        "Latest LTS runtime recommended for stable production workloads"⟩)
    else
      latest_regular.map (fun r => ⟨r.key, r.name,
        "Latest runtime recommended (no LTS version available)"⟩)
  else
    if is_ml && latest_ml.isSome then
      latest_ml.map (fun r => ⟨r.key, r.name,
        "Latest ML runtime recommended for ML development workloads"⟩)
    else if is_genomics && latest_genomics.isSome then
      latest_genomics.map (fun r => ⟨r.key, r.name,
        "Latest Genomics runtime recommended for genomics development"⟩)
    else if is_photon && latest_photon.isSome then
      latest_photon.map (fun r => ⟨r.key, r.name,
        "Latest Photon runtime recommended for SQL development"⟩)
    else
      latest_regular.map (fun r => ⟨r.key, r.name,
        "Latest runtime recommended for development workloads"⟩)

/-- `recommend_runtime_upgrades`: build the `cluster_id -> recommendation`
dict; `none` models the whole call raising when any cluster's branch
subscripts an absent runtime. -/
def recommend_runtime_upgrades (all_runtimes : List RuntimeVersion)
    (clusters : List UpgradeCandidate) :
    Option (List (String × Recommendation)) :=
  clusters.foldlM (fun recommendations cluster =>
    (recommendOne all_runtimes cluster).map
      (fun r => pySet recommendations cluster.cluster_id r)) []

/-! ## Expiring cache (`cache.py`)

The cache directory is modelled as a map from key to payload and
modification time; `readOk` / `writeOk` model whether the file I/O inside
the `try` blocks succeeds (the raised exception is caught in the source). -/

namespace CacheManager

/-- `CacheManager.get`: absent file or expired entry is a miss; a failed
read is caught and treated as a miss. -/
def get {α : Type} (cache_ttl now : Int) (store : List (String × α × Int))
    (key : String) (readOk : Bool) : Option α :=
  match List.lookup key store with
  | none => none
  | some (data, written) =>
    if now - written > cache_ttl then none
    else if readOk then some data else none

/-- `CacheManager.set`: overwrite unconditionally; a failed write is caught
and leaves the store unchanged. -/
def set {α : Type} (now : Int) (store : List (String × α × Int))
    (key : String) (data : α) (writeOk : Bool) : List (String × α × Int) :=
  if writeOk then pySet store key (data, now) else store

end CacheManager

/-- `get_available_runtime_versions` with its cache interaction: consult the
cache first (`if cached_data:` — a `None` or empty cached list falls through
to a fetch), otherwise fetch, parse, sort and store.  The second component
of the state counts upstream fetches. -/
def get_available_cached (cache_ttl now : Int)
    (response : List RawSparkVersion)
    (st : List (String × List RuntimeVersion × Int) × Nat) :
    List RuntimeVersion × (List (String × List RuntimeVersion × Int) × Nat) :=
  match CacheManager.get cache_ttl now st.1 "runtime_versions" true with
  | some cached_data =>
    if cached_data.isEmpty then
      let versions := get_available_runtime_versions response
      (versions,
        (CacheManager.set now st.1 "runtime_versions" versions true,
         st.2 + 1))
    else (cached_data, st)
  | none =>
    let versions := get_available_runtime_versions response
    (versions,
      (CacheManager.set now st.1 "runtime_versions" versions true,
       st.2 + 1))

/-! ## Lemmas about the dict operations -/

theorem lookup_eq_none_iff {β : Type} (k : String) (m : List (String × β)) :
    List.lookup k m = none ↔ k ∉ m.map Prod.fst := by
  induction m with
  | nil => simp
  | cons a t ih =>
    obtain ⟨a1, a2⟩ := a
    by_cases h : k = a1
    · subst h
      rw [List.lookup_cons, beq_self_eq_true]
      simp
    · rw [List.lookup_cons, beq_false_of_ne h]
      simp [ih, h]

theorem lookup_pySet_self {β : Type} (m : List (String × β)) (k : String)
    (v : β) : List.lookup k (pySet m k v) = some v := by
  induction m with
  | nil => simp [pySet, List.lookup_cons]
  | cons a t ih =>
    obtain ⟨a1, a2⟩ := a
    unfold pySet
    by_cases h : a1 = k
    · rw [if_pos (by simp [h]), List.lookup_cons, beq_self_eq_true]
    · rw [if_neg (by simp [h]), List.lookup_cons,
        beq_false_of_ne (Ne.symm h)]
      exact ih

theorem lookup_pySet_ne {β : Type} (m : List (String × β)) (k k' : String)
    (v : β) (h : k' ≠ k) :
    List.lookup k' (pySet m k v) = List.lookup k' m := by
  induction m with
  | nil => simp [pySet, List.lookup_cons, beq_false_of_ne h]
  | cons a t ih =>
    obtain ⟨a1, a2⟩ := a
    unfold pySet
    by_cases ha : a1 = k
    · rw [if_pos (by simp [ha]), List.lookup_cons, List.lookup_cons,
        beq_false_of_ne h, beq_false_of_ne (ha ▸ h)]
    · rw [if_neg (by simp [ha]), List.lookup_cons, List.lookup_cons]
      cases hk : (k' == a1) with
      | true => rfl
      | false => exact ih

theorem pySet_keys {β : Type} (m : List (String × β)) (k : String) (v : β) :
    (pySet m k v).map Prod.fst =
      if (List.lookup k m).isSome then m.map Prod.fst
      else m.map Prod.fst ++ [k] := by
  induction m with
  | nil => simp [pySet]
  | cons a t ih =>
    obtain ⟨a1, a2⟩ := a
    unfold pySet
    by_cases ha : a1 = k
    · subst ha
      rw [if_pos (by simp), List.lookup_cons, beq_self_eq_true]
      simp
    · rw [if_neg (by simp [ha]), List.lookup_cons,
        beq_false_of_ne (Ne.symm ha)]
      simp only [List.map_cons, ih]
      split <;> simp

theorem pySet_keys_nodup {β : Type} (m : List (String × β)) (k : String)
    (v : β) (h : (m.map Prod.fst).Nodup) :
    ((pySet m k v).map Prod.fst).Nodup := by
  rw [pySet_keys]
  split
  · exact h
  · rename_i hns
    have hnone : List.lookup k m = none := by
      cases hm : List.lookup k m with
      | none => rfl
      | some r => rw [hm] at hns; simp at hns
    rw [List.nodup_append]
    refine ⟨h, List.nodup_singleton k, ?_⟩
    intro x hx hx1
    rw [List.mem_singleton] at hx1
    subst hx1
    exact (lookup_eq_none_iff x m).mp hnone hx

theorem lookup_pySetIfAbsent_self {β : Type} (m : List (String × β))
    (k : String) (v : β) :
    List.lookup k (pySetIfAbsent m k v) = (List.lookup k m).or (some v) := by
  unfold pySetIfAbsent
  split
  · rename_i hsome
    cases hm : List.lookup k m with
    | none => rw [hm] at hsome; simp at hsome
    | some r => simp
  · rw [List.lookup_append, List.lookup_cons, beq_self_eq_true]

theorem lookup_pySetIfAbsent_ne {β : Type} (m : List (String × β))
    (k k' : String) (v : β) (h : k' ≠ k) :
    List.lookup k' (pySetIfAbsent m k v) = List.lookup k' m := by
  unfold pySetIfAbsent
  split
  · rfl
  · rw [List.lookup_append, List.lookup_cons, beq_false_of_ne h]
    simp

theorem lookup_pySetIfAbsent_of_some {β : Type} {m : List (String × β)}
    {k' : String} {r : β} (k : String) (v : β)
    (h : List.lookup k' m = some r) :
    List.lookup k' (pySetIfAbsent m k v) = some r := by
  by_cases hk : k' = k
  · subst hk
    rw [lookup_pySetIfAbsent_self, h, Option.or_some]
  · rw [lookup_pySetIfAbsent_ne _ _ _ _ hk]
    exact h

theorem pySetIfAbsent_keys_nodup {β : Type} (m : List (String × β))
    (k : String) (v : β) (h : (m.map Prod.fst).Nodup) :
    ((pySetIfAbsent m k v).map Prod.fst).Nodup := by
  unfold pySetIfAbsent
  split
  · exact h
  · rename_i hns
    have hnone : List.lookup k m = none := by
      cases hm : List.lookup k m with
      | none => rfl
      | some r => rw [hm] at hns; simp at hns
    rw [List.map_append, List.nodup_append]
    refine ⟨h, by simp, ?_⟩
    intro x hx hx1
    rw [List.map_singleton, List.mem_singleton] at hx1
    subst hx1
    exact (lookup_eq_none_iff x m).mp hnone hx

/-! ## Lemmas about the inference pass -/

theorem lookup_append_single {β : Type} (m : List (String × β))
    (k k' : String) (v : β) :
    List.lookup k' (m ++ [(k, v)]) =
      (List.lookup k' m).or (if k' = k then some v else none) := by
  rw [List.lookup_append]
  by_cases h : k' = k
  · subst h
    rw [List.lookup_cons, beq_self_eq_true, if_pos rfl]
  · rw [List.lookup_cons, beq_false_of_ne h, if_neg h]
    rfl

theorem lookup_inferStep (today : String) (avail : List String)
    (m : DepMap) (p : Nat × Nat) (v : String) :
    List.lookup v (inferStep today avail m p) =
      (List.lookup v m).or
        (if inferVersion p = v ∧ inferBelowCutoff p = true ∧
            avail.contains v = false
         then some (inferredRecord today v) else none) := by
  unfold inferStep
  by_cases hv : inferVersion p = v
  · rw [← hv] at *
    cases hm : List.lookup (inferVersion p) m with
    | some r =>
      rw [if_neg (by simp), hm, Option.or_some]
    | none =>
      cases hc : avail.contains (inferVersion p) with
      | true =>
        rw [if_neg (by simp), Option.none_or, if_neg (by simp), hm]
      | false =>
        rw [if_pos (by simp)]
        cases hb : inferBelowCutoff p with
        | true =>
          rw [if_pos rfl, lookup_append_single, if_pos rfl, hm,
            Option.none_or, Option.none_or, if_pos ⟨rfl, rfl, rfl⟩]
        | false =>
          rw [if_neg (by simp), Option.none_or, if_neg (by simp), hm]
  · have hite : (if inferVersion p = v ∧ inferBelowCutoff p = true ∧
        avail.contains v = false
        then some (inferredRecord today v) else none) = none :=
      if_neg (fun h3 => hv h3.1)
    rw [hite, Option.or_none]
    split
    · split
      · rw [lookup_append_single, if_neg (fun e => hv e.symm), Option.or_none]
      · rfl
    · rfl

theorem lookup_foldl_inferStep (today : String) (avail : List String) :
    ∀ (ps : List (Nat × Nat)) (m : DepMap) (v : String),
    List.lookup v (ps.foldl (inferStep today avail) m) =
      (List.lookup v m).or
        (if ∃ p ∈ ps, inferVersion p = v ∧ inferBelowCutoff p = true ∧
            avail.contains v = false
         then some (inferredRecord today v) else none) := by
  intro ps
  induction ps with
  | nil =>
    intro m v
    simp
  | cons p ps ih =>
    intro m v
    rw [List.foldl_cons, ih, lookup_inferStep, Option.or_assoc]
    congr 1
    by_cases hp : inferVersion p = v ∧ inferBelowCutoff p = true ∧
        avail.contains v = false
    · rw [if_pos hp, Option.or_some, if_pos ⟨p, List.mem_cons_self p ps, hp⟩]
    · rw [if_neg hp, Option.none_or]
      by_cases hps : ∃ q ∈ ps, inferVersion q = v ∧ inferBelowCutoff q = true ∧
          avail.contains v = false
      · rw [if_pos hps]
        rw [if_pos]
        obtain ⟨q, hq, hq2⟩ := hps
        exact ⟨q, List.mem_cons_of_mem p hq, hq2⟩
      · rw [if_neg hps, if_neg]
        intro ⟨q, hq, hq2⟩
        rcases List.mem_cons.mp hq with h | h
        · exact hp (h ▸ hq2)
        · exact hps ⟨q, h, hq2⟩

theorem foldl_inferStep_keys_nodup (today : String) (avail : List String) :
    ∀ (ps : List (Nat × Nat)) (m : DepMap),
    (m.map Prod.fst).Nodup →
    ((ps.foldl (inferStep today avail) m).map Prod.fst).Nodup := by
  intro ps
  induction ps with
  | nil => intro m h; exact h
  | cons p ps ih =>
    intro m h
    rw [List.foldl_cons]
    apply ih
    unfold inferStep
    split
    · rename_i hcond
      split
      · rw [List.map_append, List.nodup_append]
        refine ⟨h, by simp, ?_⟩
        intro x hx hx1
        rw [List.map_singleton, List.mem_singleton] at hx1
        rw [hx1] at hx
        have hnone : List.lookup (inferVersion p) m = none := by
          rw [Bool.and_eq_true] at hcond
          cases hm : List.lookup (inferVersion p) m with
          | none => rfl
          | some r => rw [hm] at hcond; simp at hcond
        exact (lookup_eq_none_iff (inferVersion p) m).mp hnone hx
      · exact h
    · exact h

theorem mem_gapCandidates (a b : Nat) :
    (a, b) ∈ gapCandidates ↔ 1 ≤ a ∧ a ≤ 12 ∧ b < 15 := by
  simp only [gapCandidates, List.mem_flatMap, List.mem_map, List.mem_range',
    List.mem_range]
  constructor
  · rintro ⟨major, ⟨i, hi, rfl⟩, minor, hmin, heq⟩
    injection heq with h1 h2
    subst h1
    subst h2
    omega
  · rintro ⟨h1, h2, h3⟩
    exact ⟨a, ⟨a - 1, by omega, by omega⟩, b, h3, rfl⟩

/-! ## Preservation lemmas for the scraping passes -/

theorem processText_preserves (today url : String) (m : DepMap)
    (txt : String) {v : String} {r : DeprecationRecord}
    (h : List.lookup v m = some r) :
    List.lookup v (processText today url m txt) = some r := by
  unfold processText
  split
  · split
    · split
      · exact lookup_pySetIfAbsent_of_some _ _ h
      · exact h
    · exact h
  · exact h

theorem processRow_preserves (today url : String) (vcol ecol : Nat)
    (m : DepMap) (row : List String) {v : String} {r : DeprecationRecord}
    (h : List.lookup v m = some r)
    (hb : rowOverwritesVersion v vcol ecol row = false) :
    List.lookup v (processRow today url vcol ecol m row) = some r := by
  unfold processRow
  split
  · rename_i hlen
    split
    · rename_i version hver
      split
      · split
        · exact lookup_pySetIfAbsent_of_some _ _ h
        · exact h
      · rename_i hdate
        split
        · rename_i hdep
          rw [lookup_pySet_ne]
          · exact h
          · intro hvv
            subst hvv
            simp only [rowOverwritesVersion] at hb
            rw [hver, hdate, hdep, decide_eq_true hlen] at hb
            simp at hb
        · exact h
    · exact h
  · exact h

theorem foldl_processRow_preserves (today url : String) (vcol ecol : Nat) :
    ∀ (rows : List (List String)) (m : DepMap) {v : String}
    {r : DeprecationRecord}, List.lookup v m = some r →
    rows.any (rowOverwritesVersion v vcol ecol) = false →
    List.lookup v (rows.foldl (processRow today url vcol ecol) m) = some r := by
  intro rows
  induction rows with
  | nil => intro m v r h _; exact h
  | cons row rows ih =>
    intro m v r h hb
    rw [List.any_cons, Bool.or_eq_false_iff] at hb
    rw [List.foldl_cons]
    exact ih _ (processRow_preserves today url vcol ecol m row h hb.1) hb.2

theorem processTable_preserves (today url : String) (m : DepMap)
    (tbl : HtmlTable) {v : String} {r : DeprecationRecord}
    (h : List.lookup v m = some r)
    (hb : tableOverwritesVersion v tbl = false) :
    List.lookup v (processTable today url m tbl) = some r := by
  simp only [processTable]
  simp only [tableOverwritesVersion] at hb
  rcases hscan : scanHeaderCols 0 (none, none)
      (tbl.ths.map (fun h => lowerStr (stripStr h))) with ⟨vc, ec⟩
  rw [hscan] at hb
  cases vc with
  | none => exact h
  | some vcol =>
    cases ec with
    | none => exact h
    | some ecol => exact foldl_processRow_preserves today url vcol ecol _ m h hb

theorem foldl_processTable_preserves (today url : String) :
    ∀ (tbls : List HtmlTable) (m : DepMap) {v : String}
    {r : DeprecationRecord}, List.lookup v m = some r →
    tbls.any (tableOverwritesVersion v) = false →
    List.lookup v (tbls.foldl (processTable today url) m) = some r := by
  intro tbls
  induction tbls with
  | nil => intro m v r h _; exact h
  | cons tbl tbls ih =>
    intro m v r h hb
    rw [List.any_cons, Bool.or_eq_false_iff] at hb
    rw [List.foldl_cons]
    exact ih _ (processTable_preserves today url m tbl h hb.1) hb.2

theorem foldl_processText_preserves (today url : String) :
    ∀ (txts : List String) (m : DepMap) {v : String}
    {r : DeprecationRecord}, List.lookup v m = some r →
    List.lookup v (txts.foldl (processText today url) m) = some r := by
  intro txts
  induction txts with
  | nil => intro m v r h; exact h
  | cons txt txts ih =>
    intro m v r h
    rw [List.foldl_cons]
    exact ih _ (processText_preserves today url m txt h)

theorem processPage_preserves (today url : String) (page : DocPage)
    (m : DepMap) {v : String} {r : DeprecationRecord}
    (h : List.lookup v m = some r)
    (hb : pageOverwritesVersion v page = false) :
    List.lookup v (processPage today url page m) = some r := by
  unfold processPage
  unfold pageOverwritesVersion at hb
  exact foldl_processText_preserves today url page.texts _
    (foldl_processTable_preserves today url page.tables m h hb)

theorem foldl_pages_preserves (today : String)
    (fetchPage : String → Option DocPage) :
    ∀ (us : List String) (m : DepMap) {v : String} {r : DeprecationRecord},
    List.lookup v m = some r →
    (∀ url ∈ us, ∀ page, fetchPage url = some page →
      pageOverwritesVersion v page = false) →
    List.lookup v (us.foldl (fun m url =>
      match fetchPage url with
      | some page => processPage today url page m
      | none => m) m) = some r := by
  intro us
  induction us with
  | nil => intro m v r h _; exact h
  | cons url us ih =>
    intro m v r h hb
    rw [List.foldl_cons]
    cases hf : fetchPage url with
    | none =>
      exact ih _ h (fun u hu => hb u (List.mem_cons_of_mem url hu))
    | some page =>
      exact ih _ (processPage_preserves today url page m h
          (hb url (List.mem_cons_self url us) page hf))
        (fun u hu => hb u (List.mem_cons_of_mem url hu))

theorem lookup_inferencePass_of_some (today : String) (avail : List String)
    (m : DepMap) {v : String} {r : DeprecationRecord}
    (h : List.lookup v m = some r) :
    List.lookup v (inferencePass today avail m) = some r := by
  unfold inferencePass
  rw [lookup_foldl_inferStep, h, Option.or_some]

/-! ## Key-uniqueness of the merged map -/

theorem processText_keys_nodup (today url : String) (m : DepMap)
    (txt : String) (h : (m.map Prod.fst).Nodup) :
    ((processText today url m txt).map Prod.fst).Nodup := by
  unfold processText
  split
  · split
    · split
      · exact pySetIfAbsent_keys_nodup _ _ _ h
      · exact h
    · exact h
  · exact h

theorem processRow_keys_nodup (today url : String) (vcol ecol : Nat)
    (m : DepMap) (row : List String) (h : (m.map Prod.fst).Nodup) :
    ((processRow today url vcol ecol m row).map Prod.fst).Nodup := by
  unfold processRow
  split
  · split
    · split
      · split
        · exact pySetIfAbsent_keys_nodup _ _ _ h
        · exact h
      · split
        · exact pySet_keys_nodup _ _ _ h
        · exact h
    · exact h
  · exact h

theorem foldl_processRow_keys_nodup (today url : String)
    (vcol ecol : Nat) :
    ∀ (rows : List (List String)) (m : DepMap), (m.map Prod.fst).Nodup →
    ((rows.foldl (processRow today url vcol ecol) m).map Prod.fst).Nodup := by
  intro rows
  induction rows with
  | nil => intro m h; exact h
  | cons row rows ih =>
    intro m h
    rw [List.foldl_cons]
    exact ih _ (processRow_keys_nodup today url vcol ecol m row h)

theorem processTable_keys_nodup (today url : String) (m : DepMap)
    (tbl : HtmlTable) (h : (m.map Prod.fst).Nodup) :
    ((processTable today url m tbl).map Prod.fst).Nodup := by
  simp only [processTable]
  rcases scanHeaderCols 0 (none, none)
      (tbl.ths.map (fun h => lowerStr (stripStr h))) with ⟨vc, ec⟩
  cases vc with
  | none => exact h
  | some vcol =>
    cases ec with
    | none => exact h
    | some ecol => exact foldl_processRow_keys_nodup today url vcol ecol _ m h

theorem foldl_processTable_keys_nodup (today url : String) :
    ∀ (tbls : List HtmlTable) (m : DepMap), (m.map Prod.fst).Nodup →
    ((tbls.foldl (processTable today url) m).map Prod.fst).Nodup := by
  intro tbls
  induction tbls with
  | nil => intro m h; exact h
  | cons tbl tbls ih =>
    intro m h
    rw [List.foldl_cons]
    exact ih _ (processTable_keys_nodup today url m tbl h)

theorem foldl_processText_keys_nodup (today url : String) :
    ∀ (txts : List String) (m : DepMap), (m.map Prod.fst).Nodup →
    ((txts.foldl (processText today url) m).map Prod.fst).Nodup := by
  intro txts
  induction txts with
  | nil => intro m h; exact h
  | cons txt txts ih =>
    intro m h
    rw [List.foldl_cons]
    exact ih _ (processText_keys_nodup today url m txt h)

theorem processPage_keys_nodup (today url : String) (page : DocPage)
    (m : DepMap) (h : (m.map Prod.fst).Nodup) :
    ((processPage today url page m).map Prod.fst).Nodup := by
  unfold processPage
  exact foldl_processText_keys_nodup today url page.texts _
    (foldl_processTable_keys_nodup today url page.tables m h)

theorem foldl_pages_keys_nodup (today : String)
    (fetchPage : String → Option DocPage) :
    ∀ (us : List String) (m : DepMap), (m.map Prod.fst).Nodup →
    ((us.foldl (fun m url =>
      match fetchPage url with
      | some page => processPage today url page m
      | none => m) m).map Prod.fst).Nodup := by
  intro us
  induction us with
  | nil => intro m h; exact h
  | cons url us ih =>
    intro m h
    rw [List.foldl_cons]
    cases hf : fetchPage url with
    | none => exact ih _ h
    | some page => exact ih _ (processPage_keys_nodup today url page m h)

theorem fetch_keys_nodup (fetchPage : String → Option DocPage)
    (avail : List String) (today : String) :
    ((fetch_deprecation_dates_from_docs fetchPage avail today).map
      Prod.fst).Nodup := by
  simp only [fetch_deprecation_dates_from_docs]
  apply foldl_inferStep_keys_nodup
  apply foldl_pages_keys_nodup
  decide

/-! ## Claims C1, C4, C6 - the deprecation merge -/

/-- Claim C1 (counterexample): with a page whose recognised table contains
the row `["9.1", "deprecated"]`, the "marked deprecated without a date"
branch overwrites the hardcoded record for 9.1: the final record carries the
scraped source and today's date, not the hardcoded ones — so the merge is
not first-writer-wins as claimed. -/
theorem C1_counterexample :
    List.lookup "9.1" (fetch_deprecation_dates_from_docs
      (fun u =>
        if u = "https://docs.databricks.com/en/release-notes/runtime/releases.html"
        then some ⟨[⟨["Version", "End of support"],
          [["Version", "End of support"], ["9.1", "deprecated"]]⟩], []⟩
        else none) [] "2025-01-01") =
      some ⟨"9.1", "2025-01-01",
        "https://docs.databricks.com/en/release-notes/runtime/releases.html",
        "Marked as deprecated without specific date"⟩ ∧
    List.lookup "9.1" known_eol_dates =
      some ⟨"9.1", "2024-12-19", "hardcoded",
        "DBR 9.1 LTS end of support date: December 19, 2024"⟩ := by
  constructor
  · simp only [fetch_deprecation_dates_from_docs]
    apply lookup_inferencePass_of_some
    decide
  · decide
/-- Claim C1 (amended): the merged map has at most one record per version,
and first-writer-wins holds for every pass except the table-scan branch for
rows marked deprecated without an extractable date, which overwrites
unconditionally: a hardcoded record survives the whole merge whenever no
successfully fetched table row triggers that branch for its version. -/
theorem C1_amended_first_writer_wins (fetchPage : String → Option DocPage)
    (avail : List String) (today : String) :
    ((fetch_deprecation_dates_from_docs fetchPage avail today).map
      Prod.fst).Nodup ∧
    (∀ (v : String) (r : DeprecationRecord),
      List.lookup v known_eol_dates = some r →
      (∀ url ∈ urls, ∀ page, fetchPage url = some page →
        pageOverwritesVersion v page = false) →
      List.lookup v (fetch_deprecation_dates_from_docs fetchPage avail today)
        = some r) := by
  constructor
  · exact fetch_keys_nodup fetchPage avail today
  · intro v r hv hb
    simp only [fetch_deprecation_dates_from_docs]
    exact lookup_inferencePass_of_some today avail _
      (foldl_pages_preserves today fetchPage urls _ hv hb)

/-- Witness for C1's amended theorem: with every fetch failing, the
hardcoded record for 7.3 survives the whole merge, and the merged keys are
unique. -/
theorem C1_amended_witness :
    ((fetch_deprecation_dates_from_docs (fun _ => none) [] "2025-01-01").map
      Prod.fst).Nodup ∧
    List.lookup "7.3"
      (fetch_deprecation_dates_from_docs (fun _ => none) [] "2025-01-01") =
      some ⟨"7.3", "2022-12-31", "hardcoded",
        "DBR 7.3 LTS end of support date: December 31, 2022"⟩ :=
  ⟨(C1_amended_first_writer_wins (fun _ => none) [] "2025-01-01").1,
   (C1_amended_first_writer_wins (fun _ => none) [] "2025-01-01").2 "7.3" _
     (by decide) (fun url _ page hp => by simp at hp)⟩

set_option maxRecDepth 4000 in
/-- Claim C4 (counterexample): the free-text block
`"Runtime 10.5 is deprecated"` mentions a deprecation keyword and contains
the version 10.5 but no extractable date; contrary to the claim, no record
at all is created for 10.5 (the free-text pass requires both a version and a
date). -/
theorem C4_counterexample :
    deprecationKeywords.any (fun w =>
      pyInStr w (lowerStr (stripStr "Runtime 10.5 is deprecated"))) = true ∧
    searchVersionStr (stripStr "Runtime 10.5 is deprecated") = some "10.5" ∧
    dateSearch true (stripStr "Runtime 10.5 is deprecated").toList = none ∧
    List.lookup "10.5" (fetch_deprecation_dates_from_docs
      (fun u =>
        if u = "https://docs.databricks.com/en/release-notes/runtime/releases.html"
        then some ⟨[], ["Runtime 10.5 is deprecated"]⟩
        else none) [] "2025-01-01") = none := by
  refine ⟨by decide, by decide, by decide, ?_⟩
  simp only [fetch_deprecation_dates_from_docs, inferencePass]
  rw [lookup_foldl_inferStep]
  rw [show List.lookup "10.5" (urls.foldl (fun m url =>
      match (fun u =>
        if u = "https://docs.databricks.com/en/release-notes/runtime/releases.html"
        then some (⟨[], ["Runtime 10.5 is deprecated"]⟩ : DocPage)
        else none) url with
      | some page => processPage "2025-01-01" url page m
      | none => m) known_eol_dates) = none from by decide]
  rw [Option.none_or, if_neg (by decide)]
/-- Claim C4 (amended): in the free-text pass a record is created only when
both a version and a date are extracted from the block; a block whose text
yields no extractable date leaves the map unchanged, whatever keywords or
versions it contains. -/
theorem C4_amended_no_date_no_record (today url : String) (m : DepMap)
    (rawText : String)
    (h : dateSearch true (stripStr rawText).toList = none) :
    processText today url m rawText = m := by
  unfold processText
  split
  · cases hv : searchVersionStr (stripStr rawText) with
    | none => rfl
    | some version =>
      cases hd : dateSearch true (stripStr rawText).toList with
      | none => rfl
      | some d => rw [h] at hd; exact absurd hd (by simp)
  · rfl

/-- Witness for C4's amended theorem at the counterexample text. -/
theorem C4_amended_witness :
    processText "2025-01-01"
      "https://docs.databricks.com/en/release-notes/runtime/releases.html"
      known_eol_dates "Runtime 10.5 is deprecated" = known_eol_dates :=
  C4_amended_no_date_no_record _ _ _ _ (by decide)

set_option maxRecDepth 4000 in
/-- Claim C6 (counterexample): version 8.20 is below the cutoff (8 < 9) and
absent from both the accumulated map and the catalog, yet the inference pass
adds no record for it, because the source only iterates minors 0..14 — the
claim's "every numeric version below the cutoff" is false. -/
theorem C6_counterexample :
    List.lookup "8.20" (inferencePass "2025-01-01" [] known_eol_dates) =
      none ∧
    inferVersion (8, 20) = "8.20" ∧
    inferBelowCutoff (8, 20) = true ∧
    List.lookup "8.20" known_eol_dates = none ∧
    ([] : List String).contains "8.20" = false := by
  refine ⟨?_, by decide, by decide, by decide, by decide⟩
  rw [inferencePass, lookup_foldl_inferStep]
  rw [show List.lookup "8.20" known_eol_dates = none from by decide,
    Option.none_or, if_neg (by decide)]

/-- Claim C6 (amended): restricted to the ranges the source iterates
(majors 1..12, minors 0..14), the inference pass adds an inferred record
dated today exactly for the below-cutoff versions absent from both the map
and the catalog, and its only effect on any other lookup is none: every
record of its output either was already in the input map or is such an
inferred record. -/
theorem C6_amended_inference_pass (today : String) (avail : List String)
    (m : DepMap) :
    (∀ (major minor : Nat), 1 ≤ major → major ≤ 12 → minor < 15 →
      inferBelowCutoff (major, minor) = true →
      List.lookup (inferVersion (major, minor)) m = none →
      avail.contains (inferVersion (major, minor)) = false →
      List.lookup (inferVersion (major, minor))
        (inferencePass today avail m) =
        some (inferredRecord today (inferVersion (major, minor)))) ∧
    (∀ (v : String) (r : DeprecationRecord),
      List.lookup v (inferencePass today avail m) = some r →
      List.lookup v m = some r ∨
      (List.lookup v m = none ∧ r = inferredRecord today v ∧
        avail.contains v = false ∧
        ∃ major minor, v = inferVersion (major, minor) ∧
          1 ≤ major ∧ major ≤ 12 ∧ minor < 15 ∧
          inferBelowCutoff (major, minor) = true)) := by
  constructor
  · intro major minor h1 h2 h3 hb hm hc
    rw [inferencePass, lookup_foldl_inferStep, hm, Option.none_or,
      if_pos ⟨(major, minor), (mem_gapCandidates major minor).mpr
        ⟨h1, h2, h3⟩, rfl, hb, hc⟩]
  · intro v r h
    rw [inferencePass, lookup_foldl_inferStep] at h
    cases hm : List.lookup v m with
    | some r' =>
      rw [hm, Option.or_some] at h
      exact Or.inl h
    | none =>
      rw [hm, Option.none_or] at h
      refine Or.inr ⟨rfl, ?_⟩
      by_cases hcond : ∃ p ∈ gapCandidates, inferVersion p = v ∧
          inferBelowCutoff p = true ∧ avail.contains v = false
      · rw [if_pos hcond] at h
        obtain ⟨⟨ma, mi⟩, hp, hv, hb, hc⟩ := hcond
        rw [mem_gapCandidates] at hp
        injection h with h
        exact ⟨h.symm, hc, ma, mi, hv.symm, hp.1, hp.2.1, hp.2.2, hb⟩
      · rw [if_neg hcond] at h
        exact absurd h (by simp)

/-- Witness for C6's amended theorem: version 5.0 is in range, below the
cutoff and absent everywhere, so it receives an inferred record; and the
record the pass produces for it is accounted for by the second conjunct. -/
theorem C6_amended_witness :
    List.lookup (inferVersion (5, 0))
      (inferencePass "2025-01-01" [] known_eol_dates) =
      some (inferredRecord "2025-01-01" (inferVersion (5, 0))) :=
  (C6_amended_inference_pass "2025-01-01" [] known_eol_dates).1 5 0
    (by decide) (by decide) (by decide) (by decide) (by decide) (by decide)

/-! ## Claims C7, C9 - the expiring cache -/

/-- Claim C7: cache `get` misses on absent keys and on entries older than
the TTL, an expired entry stays expired at every later time (expiry is never
extended), a failed read behaves as a miss, `set` overwrites unconditionally
and touches no other key, and a failed write leaves the store unchanged —
I/O failures never propagate. -/
theorem C7_cache_contract {α : Type} (cache_ttl now : Int)
    (store : List (String × α × Int)) (key : String) (data : α) :
    (∀ readOk, List.lookup key store = none →
      CacheManager.get cache_ttl now store key readOk = none) ∧
    (∀ readOk payload written,
      List.lookup key store = some (payload, written) →
      now - written > cache_ttl →
      CacheManager.get cache_ttl now store key readOk = none) ∧
    (∀ readOk payload written later,
      List.lookup key store = some (payload, written) →
      now - written > cache_ttl → now ≤ later →
      CacheManager.get cache_ttl later store key readOk = none) ∧
    (CacheManager.get cache_ttl now store key false = none) ∧
    (CacheManager.set now store key data false = store) ∧
    (List.lookup key (CacheManager.set now store key data true) =
      some (data, now)) ∧
    (∀ k', k' ≠ key → ∀ writeOk, List.lookup k'
      (CacheManager.set now store key data writeOk) =
      List.lookup k' store) := by
  refine ⟨?_, ?_, ?_, ?_, ?_, ?_, ?_⟩
  · intro readOk h
    unfold CacheManager.get
    rw [h]
  · intro readOk payload written h hexp
    unfold CacheManager.get
    rw [h]
    dsimp only
    rw [if_pos hexp]
  · intro readOk payload written later h hexp hle
    unfold CacheManager.get
    rw [h]
    dsimp only
    rw [if_pos (show later - written > cache_ttl by omega)]
  · unfold CacheManager.get
    cases h : List.lookup key store with
    | none => rfl
    | some pw =>
      obtain ⟨payload, written⟩ := pw
      dsimp only
      split
      · rfl
      · rfl
  · unfold CacheManager.set
    rw [if_neg (by simp)]
  · unfold CacheManager.set
    rw [if_pos rfl]
    exact lookup_pySet_self store key (data, now)
  · intro k' hk writeOk
    unfold CacheManager.set
    cases writeOk with
    | false => rw [if_neg (by simp)]
    | true =>
      rw [if_pos rfl]
      exact lookup_pySet_ne store key k' (data, now) hk

/-- Witness for C7 at a concrete store: an entry written at time 0 with TTL
60 is a miss at time 100, and `set` overwrites it. -/
theorem C7_cache_contract_witness :
    CacheManager.get 60 100 ([("runtime_versions", (5, 0))] :
      List (String × Nat × Int)) "runtime_versions" true = none ∧
    List.lookup "runtime_versions"
      (CacheManager.set 100 ([("runtime_versions", (5, 0))] :
        List (String × Nat × Int)) "runtime_versions" 7 true) =
      some (7, 100) :=
  ⟨(C7_cache_contract 60 100 _ "runtime_versions" 7).2.1 true 5 0 (by decide)
    (by decide),
   (C7_cache_contract 60 100 _ "runtime_versions" 7).2.2.2.2.2.1⟩
/-- Claim C9 (counterexample): when the upstream response parses to an empty
catalog, the cached empty list is falsy (`if cached_data:`), so a second
call within the TTL fetches again — two upstream fetches, not one. -/
theorem C9_counterexample :
    (get_available_cached 60 0 [] ([], 0)).2.2 = 1 ∧
    (get_available_cached 60 0 []
      (get_available_cached 60 0 [] ([], 0)).2).2.2 = 2 := by
  constructor
  · rfl
  · rfl

/-- Claim C9 (amended): for every upstream response whose parsed catalog is
non-empty, a first call fetches once; a second call while the entry's age is
within the TTL returns the same result with the state unchanged (no second
fetch); a call after the TTL has expired performs a second fetch. -/
theorem C9_amended_cache_idempotence (cache_ttl t0 t1 t2 : Int)
    (response : List RawSparkVersion)
    (hne : get_available_runtime_versions response ≠ [])
    (h1 : ¬(t1 - t0 > cache_ttl)) (h2 : t2 - t0 > cache_ttl) :
    (get_available_cached cache_ttl t0 response ([], 0)).2.2 = 1 ∧
    get_available_cached cache_ttl t1 response
      (get_available_cached cache_ttl t0 response ([], 0)).2 =
      ((get_available_cached cache_ttl t0 response ([], 0)).1,
       (get_available_cached cache_ttl t0 response ([], 0)).2) ∧
    (get_available_cached cache_ttl t2 response
      (get_available_cached cache_ttl t0 response ([], 0)).2).2.2 = 2 := by
  have hfirst : get_available_cached cache_ttl t0 response ([], 0) =
      (get_available_runtime_versions response,
       ([("runtime_versions", (get_available_runtime_versions response, t0))],
        1)) := rfl
  have hempty : (get_available_runtime_versions response).isEmpty = false := by
    cases hv : get_available_runtime_versions response with
    | nil => exact absurd hv hne
    | cons a l => rfl
  have hget1 : CacheManager.get cache_ttl t1
      [("runtime_versions", (get_available_runtime_versions response, t0))]
      "runtime_versions" true =
      some (get_available_runtime_versions response) := by
    unfold CacheManager.get
    rw [show List.lookup "runtime_versions"
      [("runtime_versions", (get_available_runtime_versions response, t0))] =
      some (get_available_runtime_versions response, t0) from rfl]
    dsimp only
    rw [if_neg h1, if_pos rfl]
  have hget2 : CacheManager.get cache_ttl t2
      [("runtime_versions", (get_available_runtime_versions response, t0))]
      "runtime_versions" true = none := by
    unfold CacheManager.get
    rw [show List.lookup "runtime_versions"
      [("runtime_versions", (get_available_runtime_versions response, t0))] =
      some (get_available_runtime_versions response, t0) from rfl]
    dsimp only
    rw [if_pos h2]
  refine ⟨by rw [hfirst], ?_, ?_⟩
  · rw [hfirst]
    unfold get_available_cached
    rw [hget1]
    dsimp only
    rw [if_neg (by rw [hempty]; simp)]
  · rw [hfirst]
    unfold get_available_cached
    rw [hget2]

/-- Witness for C9's amended theorem: a one-entry catalog, TTL 60, calls at
times 0, 30 and 100. -/
theorem C9_amended_witness :
    (get_available_cached 60 0 [⟨"9.1.x", "9.1 LTS"⟩] ([], 0)).2.2 = 1 ∧
    get_available_cached 60 30 [⟨"9.1.x", "9.1 LTS"⟩]
      (get_available_cached 60 0 [⟨"9.1.x", "9.1 LTS"⟩] ([], 0)).2 =
      ((get_available_cached 60 0 [⟨"9.1.x", "9.1 LTS"⟩] ([], 0)).1,
       (get_available_cached 60 0 [⟨"9.1.x", "9.1 LTS"⟩] ([], 0)).2) ∧
    (get_available_cached 60 100 [⟨"9.1.x", "9.1 LTS"⟩]
      (get_available_cached 60 0 [⟨"9.1.x", "9.1 LTS"⟩] ([], 0)).2).2.2 = 2 :=
  C9_amended_cache_idempotence 60 0 30 100 [⟨"9.1.x", "9.1 LTS"⟩]
    (by decide) (by decide) (by decide)

/-! ## Claims C2, C8 - the cluster classifier -/

/-- Claim C2: for a cluster whose parsed version has a record with a
parseable date, classification is exactly: date ≤ now gives DEPRECATED with
the record's note; now < date ≤ threshold gives SOON_DEPRECATED with the
integer days remaining in the note; date past the threshold contributes no
output entry — and the returned list is exactly the per-cluster
classification of each input cluster (threshold defaulting to three months
from now). -/
theorem C2_classification_boundaries (dnow dthreshold : Nat) (dep : DepMap)
    (avail : List String) (c : ClusterInfo) (version : String)
    (info : DeprecationRecord) (ymd : Nat × Nat × Nat)
    (hver : searchVersionStr c.spark_version = some version)
    (hinfo : List.lookup version dep = some info)
    (hdate : parseDateISO info.deprecation_date = some ymd) :
    (toDayNumber ymd ≤ dnow →
      classifyCluster dnow dthreshold dep avail c =
        some ⟨c.cluster_id, c.cluster_name, c.spark_version, "DEPRECATED",
          info.deprecation_date, info.note, info.source⟩) ∧
    (dnow < toDayNumber ymd → toDayNumber ymd ≤ dthreshold →
      classifyCluster dnow dthreshold dep avail c =
        some ⟨c.cluster_id, c.cluster_name, c.spark_version,
          "SOON_DEPRECATED", info.deprecation_date,
          "This runtime will be deprecated in " ++
            toString (toDayNumber ymd - dnow) ++ " days.", info.source⟩) ∧
    (dnow ≤ dthreshold → dthreshold < toDayNumber ymd →
      classifyCluster dnow dthreshold dep avail c = none) ∧
    (∀ (now : Nat × Nat × Nat) (threshold : Option (Nat × Nat × Nat))
      (clusters : List ClusterInfo),
      get_deprecated_runtime_clusters now threshold dep avail clusters =
        clusters.filterMap (classifyCluster (toDayNumber now)
          (toDayNumber (threshold.getD (addThreeMonths now))) dep avail)) := by
  have hne : info.deprecation_date.isEmpty = false := by
    cases he : info.deprecation_date.isEmpty with
    | false => rfl
    | true =>
      rw [String.isEmpty_iff] at he
      rw [he] at hdate
      rw [show parseDateISO "" = none from by decide] at hdate
      exact absurd hdate (by simp)
  have hbase : ∀ (P : Option AtRiskCluster → Prop),
      (P (if toDayNumber ymd ≤ dnow then
        some ⟨c.cluster_id, c.cluster_name, c.spark_version, "DEPRECATED",
          info.deprecation_date, info.note, info.source⟩
      else if toDayNumber ymd ≤ dthreshold then
        some ⟨c.cluster_id, c.cluster_name, c.spark_version,
          "SOON_DEPRECATED", info.deprecation_date,
          "This runtime will be deprecated in " ++
            toString (toDayNumber ymd - dnow) ++ " days.", info.source⟩
      else none)) →
      P (classifyCluster dnow dthreshold dep avail c) := by
    intro P hP
    unfold classifyCluster
    rw [hver]
    dsimp only
    rw [hinfo]
    dsimp only
    rw [if_neg (by rw [hne]; simp), hdate]
    exact hP
  refine ⟨?_, ?_, ?_, ?_⟩
  · intro h
    apply hbase (fun o => o = _)
    rw [if_pos h]
  · intro h1 h2
    apply hbase (fun o => o = _)
    rw [if_neg (by omega), if_pos h2]
  · intro hth h
    apply hbase (fun o => o = _)
    rw [if_neg (by omega), if_neg (by omega)]
  · intro now threshold clusters
    rfl

/-- Witness for C2: a past date yields DEPRECATED, a date 24 days out with a
three-month threshold yields SOON_DEPRECATED with "24 days" in the note. -/
theorem C2_classification_witness :
    classifyCluster (toDayNumber (2025, 10, 12)) (toDayNumber (2026, 1, 12))
      [("7.3", ⟨"7.3", "2023-01-15", "docs", "past"⟩)] []
      ⟨"c1", "Prod Cluster", "7.3.x-scala2.12"⟩ =
      some ⟨"c1", "Prod Cluster", "7.3.x-scala2.12", "DEPRECATED",
        "2023-01-15", "past", "docs"⟩ ∧
    classifyCluster (toDayNumber (2025, 10, 12)) (toDayNumber (2026, 1, 12))
      [("8.0", ⟨"8.0", "2025-11-05", "docs", "soon"⟩)] []
      ⟨"c2", "Dev Cluster", "8.0.x-scala2.12"⟩ =
      some ⟨"c2", "Dev Cluster", "8.0.x-scala2.12", "SOON_DEPRECATED",
        "2025-11-05", "This runtime will be deprecated in " ++
          toString (toDayNumber (2025, 11, 5) - toDayNumber (2025, 10, 12)) ++
          " days.", "docs"⟩ ∧
    toDayNumber (2025, 11, 5) - toDayNumber (2025, 10, 12) = 24 :=
  ⟨(C2_classification_boundaries (toDayNumber (2025, 10, 12))
      (toDayNumber (2026, 1, 12))
      [("7.3", ⟨"7.3", "2023-01-15", "docs", "past"⟩)] []
      ⟨"c1", "Prod Cluster", "7.3.x-scala2.12"⟩ "7.3"
      ⟨"7.3", "2023-01-15", "docs", "past"⟩ (2023, 1, 15) (by decide)
      (by decide) (by decide)).1 (by decide),
   (C2_classification_boundaries (toDayNumber (2025, 10, 12))
      (toDayNumber (2026, 1, 12))
      [("8.0", ⟨"8.0", "2025-11-05", "docs", "soon"⟩)] []
      ⟨"c2", "Dev Cluster", "8.0.x-scala2.12"⟩ "8.0"
      ⟨"8.0", "2025-11-05", "docs", "soon"⟩ (2025, 11, 5) (by decide)
      (by decide) (by decide)).2.1 (by decide) (by decide),
   by decide⟩

/-- Claim C8: a cluster whose parsed version has no deprecation record is
DEPRECATED with source `availability_check` and no explicit date when the
version is also absent from the creatable catalog, and contributes no entry
when the version is present in the catalog. -/
theorem C8_availability_fallback (dnow dthreshold : Nat) (dep : DepMap)
    (avail : List String) (c : ClusterInfo) (version : String)
    (hver : searchVersionStr c.spark_version = some version)
    (hinfo : List.lookup version dep = none) :
    (avail.contains version = false →
      classifyCluster dnow dthreshold dep avail c =
        some ⟨c.cluster_id, c.cluster_name, c.spark_version, "DEPRECATED",
          "Unknown",
          "This runtime is no longer available for new cluster creation",
          "availability_check"⟩) ∧
    (avail.contains version = true →
      classifyCluster dnow dthreshold dep avail c = none) := by
  constructor
  · intro h
    unfold classifyCluster
    rw [hver]
    dsimp only
    rw [hinfo]
    dsimp only
    rw [if_neg (by rw [h]; simp)]
  · intro h
    unfold classifyCluster
    rw [hver]
    dsimp only
    rw [hinfo]
    dsimp only
    rw [if_pos (by rw [h])]

/-- Witness for C8: version 6.4 has no record; absent from the catalog it is
flagged by the availability check, present in the catalog it is omitted. -/
theorem C8_availability_witness :
    classifyCluster 100 200 [] ["9.1"] ⟨"c1", "Old", "6.4.x-scala2.12"⟩ =
      some ⟨"c1", "Old", "6.4.x-scala2.12", "DEPRECATED", "Unknown",
        "This runtime is no longer available for new cluster creation",
        "availability_check"⟩ ∧
    classifyCluster 100 200 [] ["6.4", "9.1"]
      ⟨"c1", "Old", "6.4.x-scala2.12"⟩ = none :=
  ⟨(C8_availability_fallback 100 200 [] ["9.1"]
      ⟨"c1", "Old", "6.4.x-scala2.12"⟩ "6.4" (by decide) (by decide)).1
      (by decide),
   (C8_availability_fallback 100 200 [] ["6.4", "9.1"]
      ⟨"c1", "Old", "6.4.x-scala2.12"⟩ "6.4" (by decide) (by decide)).2
      (by decide)⟩

/-! ## Claim C3 - the catalog resolver -/

theorem catalogLe_trans (a b c : RuntimeVersion) : catalogLe a b →
    catalogLe b c → catalogLe a c := by
  unfold catalogLe verKeyLe
  simp only [Bool.or_eq_true, Bool.and_eq_true, decide_eq_true_eq,
    beq_iff_eq]
  omega

theorem catalogLe_total (a b : RuntimeVersion) : catalogLe a b ∨
    catalogLe b a := by
  unfold catalogLe verKeyLe
  simp only [Bool.or_eq_true, Bool.and_eq_true, decide_eq_true_eq,
    beq_iff_eq]
  omega

/-- Claim C3: the resolved catalog is a permutation of one record per raw
entry whose name contains a `major.minor` pattern (entries without one are
dropped); every record carries the first such pair as its version, the raw
key and name, and `is_lts` true iff the name contains "LTS"; the list is
sorted ascending by numeric `(major, minor)` comparison — on the names
`"9.1"`, `"10.4"`, `"7.3"` the output order is 7.3, 9.1, 10.4. -/
theorem C3_catalog_resolver (response : List RawSparkVersion) :
    (get_available_runtime_versions response).Perm
      (response.filterMap mkRuntimeVersion) ∧
    List.Pairwise catalogLe (get_available_runtime_versions response) ∧
    (∀ r ∈ get_available_runtime_versions response, ∃ rv ∈ response,
      searchVersionStr rv.name = some r.version ∧ r.key = rv.key ∧
      r.name = rv.name ∧ r.is_lts = pyInStr "LTS" rv.name) ∧
    (get_available_runtime_versions
      [⟨"a", "9.1"⟩, ⟨"b", "10.4"⟩, ⟨"c", "7.3"⟩]).map
      (fun r => r.version) = ["7.3", "9.1", "10.4"] := by
  refine ⟨List.perm_insertionSort catalogLe _,
    @List.sorted_insertionSort _ catalogLe _ ⟨catalogLe_total⟩
      ⟨catalogLe_trans⟩ _, ?_, by decide⟩
  intro r hr
  have hr2 : r ∈ response.filterMap mkRuntimeVersion :=
    (List.perm_insertionSort catalogLe _).subset hr
  rw [List.mem_filterMap] at hr2
  obtain ⟨rv, hrv, hmk⟩ := hr2
  refine ⟨rv, hrv, ?_⟩
  unfold mkRuntimeVersion at hmk
  cases hs : searchVersionStr rv.name with
  | none => rw [hs] at hmk; exact absurd hmk (by simp)
  | some num =>
    rw [hs] at hmk
    injection hmk with hmk
    rw [← hmk]
    exact ⟨rfl, rfl, rfl, rfl⟩

/-- Witness for C3 at the boundary example from the specification: the
records for the three names come out in numeric order with the LTS flag
from the name. -/
theorem C3_catalog_witness :
    (get_available_runtime_versions
      [⟨"a", "9.1"⟩, ⟨"b", "10.4"⟩, ⟨"c", "7.3"⟩]).map
      (fun r => r.version) = ["7.3", "9.1", "10.4"] ∧
    ∃ rv ∈ ([⟨"a", "9.1"⟩, ⟨"b", "10.4"⟩, ⟨"c", "7.3"⟩] :
        List RawSparkVersion),
      searchVersionStr rv.name =
        some (⟨"c", "7.3", "7.3", false⟩ : RuntimeVersion).version ∧
      (⟨"c", "7.3", "7.3", false⟩ : RuntimeVersion).key = rv.key ∧
      (⟨"c", "7.3", "7.3", false⟩ : RuntimeVersion).name = rv.name ∧
      (⟨"c", "7.3", "7.3", false⟩ : RuntimeVersion).is_lts =
        pyInStr "LTS" rv.name :=
  ⟨(C3_catalog_resolver []).2.2.2,
   (C3_catalog_resolver [⟨"a", "9.1"⟩, ⟨"b", "10.4"⟩, ⟨"c", "7.3"⟩]).2.2.1
     ⟨"c", "7.3", "7.3", false⟩ (by decide)⟩

/-! ## Claims C5, C10 - the upgrade recommender -/

theorem isSome_map {α β : Type} (f : α → β) (o : Option α) :
    (o.map f).isSome = o.isSome := by
  cases o <;> rfl

theorem lookup_pySet_isSome {β : Type} (m : List (String × β))
    (k id : String) (v : β) :
    (List.lookup id (pySet m k v)).isSome = true ↔
      (List.lookup id m).isSome = true ∨ id = k := by
  by_cases h : id = k
  · subst h
    rw [lookup_pySet_self]
    simp
  · rw [lookup_pySet_ne _ _ _ _ h]
    simp [h]

theorem recommendOne_isSome (all : List RuntimeVersion)
    (hne : all ≠ []) (c : UpgradeCandidate) :
    (recommendOne all c).isSome = true := by
  have hreg : all.getLast?.isSome = true := by
    cases hl : all.getLast? with
    | none => exact absurd (List.getLast?_eq_none_iff.mp hl) hne
    | some r => rfl
  simp only [recommendOne]
  split
  · split
    · rename_i hguard
      rw [Bool.and_eq_true] at hguard
      rw [isSome_map]
      exact hguard.2
    · split
      · rename_i hguard
        rw [Bool.and_eq_true] at hguard
        rw [isSome_map]
        exact hguard.2
      · split
        · rename_i hguard
          rw [Bool.and_eq_true] at hguard
          rw [isSome_map]
          exact hguard.2
        · split
          · rename_i hguard
            rw [isSome_map]
            exact hguard
          · rw [isSome_map]
            exact hreg
  · split
    · rename_i hguard
      rw [Bool.and_eq_true] at hguard
      rw [isSome_map]
      exact hguard.2
    · split
      · rename_i hguard
        rw [Bool.and_eq_true] at hguard
        rw [isSome_map]
        exact hguard.2
      · split
        · rename_i hguard
          rw [Bool.and_eq_true] at hguard
          rw [isSome_map]
          exact hguard.2
        · rw [isSome_map]
          exact hreg

theorem recommend_foldlM_total (all : List RuntimeVersion) :
    ∀ (cs : List UpgradeCandidate) (m0 : List (String × Recommendation)),
    (∀ c ∈ cs, (recommendOne all c).isSome = true) →
    ∃ mf, List.foldlM (fun recommendations cluster =>
      (recommendOne all cluster).map
        (fun r => pySet recommendations cluster.cluster_id r)) m0 cs =
      some mf := by
  intro cs
  induction cs with
  | nil => intro m0 _; exact ⟨m0, rfl⟩
  | cons c cs ih =>
    intro m0 hall
    rw [List.foldlM_cons]
    cases hr : recommendOne all c with
    | none =>
      have := hall c (List.mem_cons_self c cs)
      rw [hr] at this
      exact absurd this (by simp)
    | some r =>
      obtain ⟨mf, hmf⟩ := ih (pySet m0 c.cluster_id r)
        (fun c' hc' => hall c' (List.mem_cons_of_mem c hc'))
      exact ⟨mf, by simpa using hmf⟩

theorem recommend_foldlM_lookup_untouched (all : List RuntimeVersion) :
    ∀ (cs : List UpgradeCandidate) (m0 mf : List (String × Recommendation))
    (id : String),
    List.foldlM (fun recommendations cluster =>
      (recommendOne all cluster).map
        (fun r => pySet recommendations cluster.cluster_id r)) m0 cs =
      some mf →
    (∀ c ∈ cs, c.cluster_id ≠ id) →
    List.lookup id mf = List.lookup id m0 := by
  intro cs
  induction cs with
  | nil =>
    intro m0 mf id h _
    rw [List.foldlM_nil] at h
    injection h with h
    rw [h]
  | cons c cs ih =>
    intro m0 mf id h hid
    rw [List.foldlM_cons] at h
    cases hr : recommendOne all c with
    | none => rw [hr] at h; exact absurd h (by simp)
    | some r =>
      rw [hr] at h
      simp only [Option.map_some, Option.map_some', Option.bind_eq_bind,
        Option.some_bind] at h
      rw [ih _ _ _ h (fun c' hc' => hid c' (List.mem_cons_of_mem c hc'))]
      exact lookup_pySet_ne _ _ _ _
        (fun e => hid c (List.mem_cons_self c cs) e.symm)
theorem recommend_foldlM_lookup_value (all : List RuntimeVersion) :
    ∀ (cs : List UpgradeCandidate) (m0 mf : List (String × Recommendation))
    (c : UpgradeCandidate) (r : Recommendation),
    List.foldlM (fun recommendations cluster =>
      (recommendOne all cluster).map
        (fun r => pySet recommendations cluster.cluster_id r)) m0 cs =
      some mf →
    c ∈ cs → (∀ c' ∈ cs, c'.cluster_id = c.cluster_id → c' = c) →
    recommendOne all c = some r →
    List.lookup c.cluster_id mf = some r := by
  intro cs
  induction cs with
  | nil => intro m0 mf c r _ hc; exact absurd hc (List.not_mem_nil c)
  | cons c1 cs ih =>
    intro m0 mf c r h hc huniq hrec
    rw [List.foldlM_cons] at h
    cases hr : recommendOne all c1 with
    | none => rw [hr] at h; exact absurd h (by simp)
    | some r1 =>
      rw [hr] at h
      simp only [Option.map_some, Option.map_some', Option.bind_eq_bind,
        Option.some_bind] at h
      by_cases hid : c1.cluster_id = c.cluster_id
      · have hc1 : c1 = c := huniq c1 (List.mem_cons_self c1 cs) hid
        subst hc1
        have hr1 : r1 = r := by
          rw [hrec] at hr
          injection hr with e
          exact e.symm
        subst hr1
        by_cases hmem : c1 ∈ cs
        · exact ih _ _ _ _ h hmem
            (fun c' hc' he => huniq c' (List.mem_cons_of_mem c1 hc') he) hrec
        · have hno : ∀ c' ∈ cs, c'.cluster_id ≠ c1.cluster_id := by
            intro c' hc' he
            exact hmem ((huniq c' (List.mem_cons_of_mem c1 hc') he) ▸ hc')
          rw [recommend_foldlM_lookup_untouched all cs _ _ _ h hno]
          exact lookup_pySet_self _ _ _
      · have hcs : c ∈ cs := by
          rcases List.mem_cons.mp hc with he | hm
          · exact absurd (by rw [he]) hid
          · exact hm
        exact ih _ _ _ _ h hcs
          (fun c' hc' he => huniq c' (List.mem_cons_of_mem c1 hc') he) hrec
theorem recommend_foldlM_keys (all : List RuntimeVersion) :
    ∀ (cs : List UpgradeCandidate) (m0 mf : List (String × Recommendation)),
    List.foldlM (fun recommendations cluster =>
      (recommendOne all cluster).map
        (fun r => pySet recommendations cluster.cluster_id r)) m0 cs =
      some mf →
    ((m0.map Prod.fst).Nodup → (mf.map Prod.fst).Nodup) ∧
    (∀ id, (List.lookup id mf).isSome = true ↔
      (List.lookup id m0).isSome = true ∨ ∃ c ∈ cs, c.cluster_id = id) := by
  intro cs
  induction cs with
  | nil =>
    intro m0 mf h
    rw [List.foldlM_nil] at h
    injection h with h
    subst h
    exact ⟨id, fun i => by simp⟩
  | cons c1 cs ih =>
    intro m0 mf h
    rw [List.foldlM_cons] at h
    cases hr : recommendOne all c1 with
    | none => rw [hr] at h; exact absurd h (by simp)
    | some r1 =>
      rw [hr] at h
      simp only [Option.map_some, Option.map_some', Option.bind_eq_bind,
        Option.some_bind] at h
      obtain ⟨hnd, hks⟩ := ih _ _ h
      constructor
      · intro h0
        exact hnd (pySet_keys_nodup m0 c1.cluster_id r1 h0)
      · intro id
        rw [hks id, lookup_pySet_isSome]
        constructor
        · rintro ((h | h) | h)
          · exact Or.inl h
          · exact Or.inr ⟨c1, List.mem_cons_self c1 cs, h.symm⟩
          · obtain ⟨c, hc, hcid⟩ := h
            exact Or.inr ⟨c, List.mem_cons_of_mem c1 hc, hcid⟩
        · rintro (h | ⟨c, hc, hcid⟩)
          · exact Or.inl (Or.inl h)
          · rcases List.mem_cons.mp hc with he | hm
            · exact Or.inl (Or.inr (by rw [← hcid, he]))
            · exact Or.inr ⟨c, hm, hcid⟩

theorem recommendOne_production_ml_lts (all : List RuntimeVersion)
    (c : UpgradeCandidate) (rt : RuntimeVersion)
    (hprod : (["prod", "production", "prd", "live"].any
      (fun term => pyInStr term (lowerStr c.cluster_name))) = true)
    (hml : pyInStr "ml" (lowerStr c.current_runtime) = true)
    (hlts : ((all.filter (fun rt => pyInStr "ML" rt.name)).filter
      (fun rt => pyInStr "LTS" rt.name)).getLast? = some rt) :
    recommendOne all c = some ⟨rt.key, rt.name,
      "Latest ML LTS runtime recommended for production ML workloads"⟩ := by
  simp only [recommendOne]
  rw [hprod, hml, hlts]
  simp
/-- Claim C5: recommendation is deterministic per cluster and, for a
production-named cluster on an ML runtime, always the latest ML+LTS runtime
of the catalog with the fixed production-ML rationale, independent of the
other clusters in the input and of their order (provided the cluster's id
identifies it uniquely in the list, as cluster ids do). -/
theorem C5_production_ml_recommendation (all : List RuntimeVersion)
    (clusters : List UpgradeCandidate) (c : UpgradeCandidate)
    (rt : RuntimeVersion)
    (hc : c ∈ clusters)
    (huniq : ∀ c' ∈ clusters, c'.cluster_id = c.cluster_id → c' = c)
    (hprod : (["prod", "production", "prd", "live"].any
      (fun term => pyInStr term (lowerStr c.cluster_name))) = true)
    (hml : pyInStr "ml" (lowerStr c.current_runtime) = true)
    (hlts : ((all.filter (fun rt => pyInStr "ML" rt.name)).filter
      (fun rt => pyInStr "LTS" rt.name)).getLast? = some rt) :
    ∃ mf, recommend_runtime_upgrades all clusters = some mf ∧
      List.lookup c.cluster_id mf = some ⟨rt.key, rt.name,
        "Latest ML LTS runtime recommended for production ML workloads"⟩ := by
  have hne : all ≠ [] := by
    intro h
    subst h
    simp at hlts
  obtain ⟨mf, hmf⟩ := recommend_foldlM_total all clusters []
    (fun c' _ => recommendOne_isSome all hne c')
  refine ⟨mf, hmf, ?_⟩
  exact recommend_foldlM_lookup_value all clusters [] mf c _ hmf hc huniq
    (recommendOne_production_ml_lts all c rt hprod hml hlts)

/-- Witness for C5: a production ML cluster with an ML+LTS runtime in the
catalog receives that runtime with the fixed rationale. -/
theorem C5_production_ml_witness :
    ∃ mf, recommend_runtime_upgrades
      [⟨"a", "9.1 LTS (Scala 2.12)", "9.1", true⟩,
       ⟨"b", "10.4 LTS ML (Scala 2.12)", "10.4", true⟩]
      [⟨"c1", "prod-ml-cluster", "10.4.x-cpu-ml-scala2.12"⟩] = some mf ∧
      List.lookup "c1" mf = some ⟨"b", "10.4 LTS ML (Scala 2.12)",
        "Latest ML LTS runtime recommended for production ML workloads"⟩ :=
  C5_production_ml_recommendation
    [⟨"a", "9.1 LTS (Scala 2.12)", "9.1", true⟩,
     ⟨"b", "10.4 LTS ML (Scala 2.12)", "10.4", true⟩]
    [⟨"c1", "prod-ml-cluster", "10.4.x-cpu-ml-scala2.12"⟩]
    ⟨"c1", "prod-ml-cluster", "10.4.x-cpu-ml-scala2.12"⟩
    ⟨"b", "10.4 LTS ML (Scala 2.12)", "10.4", true⟩
    (by decide) (by decide) (by decide) (by decide) (by decide)

/-- Claim C10: with a non-empty catalog, `recommend_runtime_upgrades` is
total (no status filter) and returns exactly one recommendation per distinct
cluster id, with unique keys; with an empty catalog and a cluster matching
no flavor branch, the last-resort subscript of the absent latest runtime
faults and the whole call fails. -/
theorem C10_recommender_totality :
    (∀ (all : List RuntimeVersion) (clusters : List UpgradeCandidate),
      all ≠ [] →
      ∃ mf, recommend_runtime_upgrades all clusters = some mf ∧
        (mf.map Prod.fst).Nodup ∧
        (∀ id, (List.lookup id mf).isSome = true ↔
          ∃ c ∈ clusters, c.cluster_id = id)) ∧
    recommend_runtime_upgrades []
      [⟨"c1", "analytics-box", "standard-runtime"⟩] = none := by
  constructor
  · intro all clusters hne
    obtain ⟨mf, hmf⟩ := recommend_foldlM_total all clusters []
      (fun c' _ => recommendOne_isSome all hne c')
    obtain ⟨hnd, hks⟩ := recommend_foldlM_keys all clusters [] mf hmf
    refine ⟨mf, hmf, hnd (by simp), ?_⟩
    intro id
    rw [hks id]
    simp
  · rfl

/-- Witness for C10: a one-runtime catalog yields exactly one
recommendation for the single input cluster. -/
theorem C10_recommender_witness :
    ∃ mf, recommend_runtime_upgrades
      [⟨"k", "9.1 LTS (Scala 2.12)", "9.1", true⟩]
      [⟨"c1", "dev-box", "7.3.x-scala2.12"⟩] = some mf ∧
      (mf.map Prod.fst).Nodup ∧
      (∀ id, (List.lookup id mf).isSome = true ↔
        ∃ c ∈ [(⟨"c1", "dev-box", "7.3.x-scala2.12"⟩ : UpgradeCandidate)],
          c.cluster_id = id) :=
  C10_recommender_totality.1 [⟨"k", "9.1 LTS (Scala 2.12)", "9.1", true⟩]
    [⟨"c1", "dev-box", "7.3.x-scala2.12"⟩] (by decide)

end DBM
